import Mathlib

/-!
Verification of the Remote Command Center client-side state-reconciliation
core (client-app/src/App.tsx).

The embedding below translates the zustand store of the client application:
the canonical collections (command catalog and execution history), the
event-merge path `integrateEvent`, the snapshot load `fetchData`, the
session operations `login` / `logout` and their persisted-session handling,
the URL normalizer `normalizeServerUrl`, and the local parameter guard of
`CommandDetailSheet.handleExecute`.

Modelling conventions:
- JavaScript `Array.prototype.sort` is stable (ES2019); it is embedded as
  `List.insertionSort`, which is the stable sort for a total preorder.
- String timestamps compared through `dayjs(x).valueOf()` are embedded as
  the integer millisecond value `startedAt : Int`.
- The case-insensitive comparator `a.name.toLowerCase().localeCompare(...)`
  is embedded as code-point lexicographic order on the lower-cased
  character list (`lexLe` on `lowerKey`).
- JavaScript string primitives (trim, split, join, startsWith, toLowerCase,
  stripping trailing slashes) are embedded as executable functions on
  `List Char` so that every definition evaluates inside the kernel.
- Network effects are embedded by passing the outcome of the remote call as
  an explicit argument (`LoginResult`, `FetchOutcome`); the durable local
  storage is an explicit record threaded through the session operations.
-/

namespace CommandCenter

/-- Execution status values of an execution log entry. -/
inductive ExecutionStatus
  | pending
  | running
  | success
  | error
deriving DecidableEq

/-- Command catalog entry, translated from the CommandDefinition type. -/
structure CommandDefinition where
  id : String
  name : String
  executable : String
  args : List String
  description : Option String
  tags : List String
  allowArguments : Bool
  createdAt : String
  updatedAt : String
deriving DecidableEq

/-- Execution history entry, translated from the ExecutionLog type.
`startedAt` and `finishedAt` are the dayjs millisecond values of the
corresponding timestamp strings. -/
structure ExecutionLog where
  id : String
  commandId : String
  commandName : String
  requestedBy : String
  status : ExecutionStatus
  output : String
  error : Option String
  parameters : List String
  startedAt : Int
  finishedAt : Option Int
deriving DecidableEq

/-- Connection status of the session. -/
inductive ConnectionStatus
  | disconnected
  | connecting
  | connected
deriving DecidableEq

/-- Discriminated envelope of inbound server events. -/
inductive ServerEvent
  | command_created (payload : CommandDefinition)
  | command_updated (payload : CommandDefinition)
  | command_deleted (id : String)
  | execution_started (payload : ExecutionLog)
  | execution_updated (payload : ExecutionLog)
  | execution_finished (payload : ExecutionLog)
deriving DecidableEq

/-- Classifies the three execution-side event types. -/
def isExecutionEvent : ServerEvent → Bool
  | .execution_started _ => true
  | .execution_updated _ => true
  | .execution_finished _ => true
  | _ => false

/-- Payload of an execution-side event, if any. -/
def executionPayload : ServerEvent → Option ExecutionLog
  | .execution_started p => some p
  | .execution_updated p => some p
  | .execution_finished p => some p
  | _ => none

/-! ### JavaScript string primitives, embedded over `List Char` -/

/-- Embedding of JavaScript String.prototype.trim. -/
def jsTrim (s : String) : String :=
  ⟨((s.data.dropWhile Char.isWhitespace).reverse.dropWhile Char.isWhitespace).reverse⟩

/-- Embedding of the regex replace(/\/+$/, ''): remove the maximal run of
trailing slash characters. -/
def stripTrailingSlashes (s : String) : String :=
  ⟨(s.data.reverse.dropWhile (fun c => c == '/')).reverse⟩

/-- Boolean prefix test on character lists (first argument: the list, second:
the candidate prefix). -/
def listStartsWith : List Char → List Char → Bool
  | _, [] => true
  | [], _ :: _ => false
  | a :: s, b :: t => a == b && listStartsWith s t

/-- Embedding of the case-insensitive scheme test /^https?:\/\//i. -/
def hasHttpScheme (s : String) : Bool :=
  listStartsWith (s.data.map Char.toLower) "http://".data ||
    listStartsWith (s.data.map Char.toLower) "https://".data

/-- Embedding of JavaScript split('\n') on the character list. -/
def splitLines (l : List Char) : List (List Char) :=
  l.foldr
    (fun c acc =>
      if c = '\n' then [] :: acc
      else
        match acc with
        | [] => [[c]]
        | h :: t => (c :: h) :: t)
    [[]]

/-- Embedding of JavaScript Array.prototype.join(','). -/
def joinComma : List String → String
  | [] => ""
  | [s] => s
  | s :: rest => s ++ "," ++ joinComma rest

/-- Code-point lexicographic order on character lists; the embedding of the
localeCompare-based comparator. -/
def lexLe : List Char → List Char → Bool
  | [], _ => true
  | _ :: _, [] => false
  | a :: s, b :: t => if a < b then true else if b < a then false else lexLe s t

/-- Lower-cased character list of a string (JavaScript toLowerCase). -/
def lowerKey (s : String) : List Char :=
  s.data.map Char.toLower

/-! ### Sort comparators of the reconciler -/

/-- Comparator used on the commands collection: ascending by
case-insensitive name. -/
def cmdLe (a b : CommandDefinition) : Prop :=
  lexLe (lowerKey a.name) (lowerKey b.name) = true

instance : DecidableRel cmdLe :=
  fun a b => inferInstanceAs (Decidable (_ = true))

/-- Comparator used on the history collection: descending by `startedAt`. -/
def histLe (a b : ExecutionLog) : Prop :=
  b.startedAt ≤ a.startedAt

instance : DecidableRel histLe :=
  fun a b => inferInstanceAs (Decidable (_ ≤ _))

/-! ### Reconciler merge functions (the merge arms of integrateEvent) -/

/-- Merge arm of the command_created / command_updated events: remove any
entry with the payload's id, prepend the payload, stable-sort by
case-insensitive name. -/
def applyCommandUpsert (collection : List CommandDefinition)
    (payload : CommandDefinition) : List CommandDefinition :=
  List.insertionSort cmdLe (payload :: collection.filter (fun c => c.id ≠ payload.id))

/-- Merge arm of the command_deleted event: remove the matching entry. -/
def applyCommandDelete (collection : List CommandDefinition) (id : String) :
    List CommandDefinition :=
  collection.filter (fun command => command.id ≠ id)

/-- Merge arm of the execution_* events: remove any entry with the payload's
id, prepend the payload, stable-sort by `startedAt` descending, truncate to
the first 100 entries. -/
def applyExecutionUpsert (collection : List ExecutionLog)
    (payload : ExecutionLog) : List ExecutionLog :=
  (List.insertionSort histLe
      (payload :: collection.filter (fun item => item.id ≠ payload.id))).take 100

section StableUpsertDef

variable {α : Type} (le : α → α → Prop) [DecidableRel le] (pid : α → String)

/-- Keyed stable upsert: the common shape of the two reconciler merge arms
(remove the entries carrying the payload's id, prepend the payload,
stable-sort). -/
def upsertS (p : α) (l : List α) : List α :=
  List.insertionSort le (p :: l.filter (fun x => pid x ≠ pid p))

end StableUpsertDef

/-! ### Store state and session persistence -/

/-- Parsed shape of the persisted session record (both fields optional, as
in the JSON.parse result). -/
structure StoredSession where
  serverUrl : Option String
  token : Option String
deriving DecidableEq

/-- Durable local storage: the session record and the last-used server
record. -/
structure LocalStorage where
  session : Option StoredSession
  server : Option String
deriving DecidableEq

/-- State of the zustand command store. -/
structure StoreState where
  serverUrl : String
  token : String
  status : ConnectionStatus
  socketConnected : Bool
  loading : Bool
  error : Option String
  commands : List CommandDefinition
  history : List ExecutionLog
deriving DecidableEq

/-- Event-merge path of the store, translated from integrateEvent. -/
def integrateEvent (s : StoreState) (event : ServerEvent) : StoreState :=
  match event with
  | .command_created payload => { s with commands := applyCommandUpsert s.commands payload }
  | .command_updated payload => { s with commands := applyCommandUpsert s.commands payload }
  | .command_deleted id => { s with commands := applyCommandDelete s.commands id }
  | .execution_started payload => { s with history := applyExecutionUpsert s.history payload }
  | .execution_updated payload => { s with history := applyExecutionUpsert s.history payload }
  | .execution_finished payload => { s with history := applyExecutionUpsert s.history payload }

/-- Folds a finite sequence of inbound events through the event-merge path. -/
def applyEvents (s : StoreState) (events : List ServerEvent) : StoreState :=
  events.foldl integrateEvent s

/-- URL normalizer, translated from normalizeServerUrl. -/
def normalizeServerUrl (input : String) : String :=
  let trimmed := jsTrim input
  if trimmed = "" then ""
  else
    let withoutTrailingSlash := stripTrailingSlashes trimmed
    if hasHttpScheme withoutTrailingSlash then withoutTrailingSlash
    else "https://" ++ withoutTrailingSlash

/-- Normalizer written from the specification's words alone, for comparison
with the source translation: trim whitespace, strip all trailing slashes,
and prefix https:// exactly when no http:// or https:// scheme is present. -/
def specNormalizeServerUrl (input : String) : String :=
  let w := stripTrailingSlashes (jsTrim input)
  if hasHttpScheme w then w else "https://" ++ w

/-- Outcome of the remote login request, passed explicitly: either the token
of a 2xx response, or the surfaced message of a non-2xx response or network
failure. -/
inductive LoginResult
  | success (token : String)
  | failure (message : String)
deriving DecidableEq

/-- Session login, translated from the login action of the store: normalize
the URL, reject an empty one locally, otherwise apply the outcome of the
remote call, persisting the session record on success and removing it on
failure. -/
def login (s : StoreState) (storage : LocalStorage) (serverUrl : String)
    (result : LoginResult) : StoreState × LocalStorage :=
  let normalizedUrl := normalizeServerUrl serverUrl
  if normalizedUrl = "" then
    ({ s with error := some "Please provide a server URL." }, storage)
  else
    let s1 := { s with status := ConnectionStatus.connecting, error := none,
                       loading := true, serverUrl := normalizedUrl }
    match result with
    | .success token =>
        ({ s1 with token := token, status := ConnectionStatus.connected, loading := false },
         { storage with session := some ⟨some normalizedUrl, some token⟩ })
    | .failure message =>
        ({ s1 with status := ConnectionStatus.disconnected, loading := false,
                   error := some message, token := "" },
         { storage with session := none })

/-- Session logout, translated from the logout action of the store. -/
def logout (s : StoreState) (storage : LocalStorage) : StoreState × LocalStorage :=
  ({ s with token := "", status := ConnectionStatus.disconnected, socketConnected := false,
            commands := [], history := [] },
   { storage with session := none })

/-- Joint outcome of the two concurrent snapshot pulls: both succeeded, or
at least one failed with the surfaced message of the first rejection. -/
inductive FetchOutcome
  | bothOk (commandList : List CommandDefinition) (historyList : List ExecutionLog)
  | failed (message : String)
deriving DecidableEq

/-- Snapshot load, translated from the fetchData action of the store: both
pulls must succeed for the two collections to be replaced (sorted); any
failure reports a single error and leaves the collections untouched. -/
def fetchData (s : StoreState) (outcome : FetchOutcome) : StoreState :=
  if s.serverUrl = "" ∨ s.token = "" then s
  else
    match outcome with
    | .bothOk commandList historyList =>
        { s with commands := List.insertionSort cmdLe commandList,
                 history := List.insertionSort histLe historyList,
                 loading := false, status := ConnectionStatus.connected, error := none }
    | .failed message =>
        { s with loading := false, error := some message }

/-- Initial session hydration, translated from initialSession: a stored
session record yields its fields (empty-string defaults); otherwise the
last-used server record is used with an empty token. -/
def initialSession (stored : Option StoredSession) (fallbackServer : Option String) :
    String × String :=
  match stored with
  | some parsed => (parsed.serverUrl.getD "", parsed.token.getD "")
  | none => (fallbackServer.getD "", "")

/-- Initial store construction, translated from the useCommandStore
initializer: the hydrated session plus status connecting exactly when the
hydrated token is non-empty. -/
def initialStore (stored : Option StoredSession) (fallbackServer : Option String) :
    StoreState :=
  let session := initialSession stored fallbackServer
  { serverUrl := session.1, token := session.2,
    status := if session.2 ≠ "" then ConnectionStatus.connecting
              else ConnectionStatus.disconnected,
    socketConnected := false, loading := false, error := none,
    commands := [], history := [] }

/-! ### Local execute guard (CommandDetailSheet.handleExecute) -/

/-- Result of the local execute handler: a local validation failure raised
before any request, or the request actually issued with its parameters. -/
inductive ExecuteOutcome
  | validationError (message : String)
  | networkCall (parameters : List String)
deriving DecidableEq

/-- Parameter parsing of the handler: split the textarea input on newlines,
trim each line, drop empty lines. -/
def parseParameters (input : String) : List String :=
  ((splitLines input.data).map (fun cs => jsTrim ⟨cs⟩)).filter (fun s => s ≠ "")

/-- Local guard of the handler, translated from handleExecute: a command
that does not allow arguments rejects a non-empty parameter list whose
comma-joined form differs from the comma-joined default args. -/
def guardExecute (command : CommandDefinition) (parameters : List String) :
    ExecuteOutcome :=
  if command.allowArguments = false ∧ parameters ≠ [] ∧
      joinComma parameters ≠ joinComma command.args then
    ExecuteOutcome.validationError
      "This command does not accept custom parameters. Please reset to defaults."
  else
    ExecuteOutcome.networkCall parameters

/-- Local execute handler: parse the textarea input, then apply the guard. -/
def handleExecute (command : CommandDefinition) (parameterInput : String) :
    ExecuteOutcome :=
  guardExecute command (parseParameters parameterInput)

/-! ### Uniqueness predicates and concrete sample values -/

/-- No two command entries share an id. -/
def commandIdsNodup (l : List CommandDefinition) : Prop :=
  l.Pairwise (fun a b => a.id ≠ b.id)

/-- No two history entries share an id. -/
def historyIdsNodup (l : List ExecutionLog) : Prop :=
  l.Pairwise (fun a b => a.id ≠ b.id)

/-- Concrete execution log used in closed evaluations. -/
def sampleLog (id : String) (startedAt : Int) : ExecutionLog :=
  { id := id, commandId := "c", commandName := "cmd", requestedBy := "admin",
    status := ExecutionStatus.pending, output := "", error := none,
    parameters := [], startedAt := startedAt, finishedAt := none }

/-- Concrete command with fixed arguments used in closed evaluations. -/
def fixedCommand : CommandDefinition :=
  { id := "c1", name := "restart", executable := "/bin/restart", args := ["a", "b"],
    description := none, tags := [], allowArguments := false,
    createdAt := "2024-01-01", updatedAt := "2024-01-01" }

/-- Concrete authenticated store with empty collections. -/
def emptyStore : StoreState :=
  { serverUrl := "https://cc.local:6280", token := "tok",
    status := ConnectionStatus.connected, socketConnected := true,
    loading := false, error := none, commands := [], history := [] }

/-- Concrete history collection of 101 entries. -/
def oversizedHistory : List ExecutionLog :=
  (List.range 101).map (fun i => sampleLog "x" (Int.ofNat i))

/-! ### Order facts about the comparators -/

theorem lexLe_total : ∀ x y : List Char, lexLe x y = true ∨ lexLe y x = true
  | [], _ => Or.inl rfl
  | _ :: _, [] => Or.inr rfl
  | a :: s, b :: t => by
    rcases lt_trichotomy a b with hab | hab | hab
    · left; simp [lexLe, hab]
    · subst hab
      rcases lexLe_total s t with h | h
      · left; simp [lexLe, h]
      · right; simp [lexLe, h]
    · right; simp [lexLe, hab]

theorem lexLe_trans :
    ∀ x y z : List Char, lexLe x y = true → lexLe y z = true → lexLe x z = true
  | [], _, _, _, _ => rfl
  | _ :: _, [], _, hxy, _ => by simp [lexLe] at hxy
  | _ :: _, _ :: _, [], _, hyz => by simp [lexLe] at hyz
  | a :: s, b :: t, c :: u, hxy, hyz => by
    rcases lt_trichotomy a b with hab | hab | hab
    · rcases lt_trichotomy b c with hbc | hbc | hbc
      · simp [lexLe, lt_trans hab hbc]
      · subst hbc; simp [lexLe, hab]
      · rw [lexLe, if_neg (asymm hbc), if_pos hbc] at hyz; exact absurd hyz (by simp)
    · subst hab
      rcases lt_trichotomy a c with hac | hac | hac
      · simp [lexLe, hac]
      · subst hac
        rw [lexLe, if_neg (lt_irrefl a), if_neg (lt_irrefl a)] at hxy hyz ⊢
        exact lexLe_trans s t u hxy hyz
      · rw [lexLe, if_neg (asymm hac), if_pos hac] at hyz; exact absurd hyz (by simp)
    · rw [lexLe, if_neg (asymm hab), if_pos hab] at hxy; exact absurd hxy (by simp)

instance : IsTotal CommandDefinition cmdLe :=
  ⟨fun a b => lexLe_total (lowerKey a.name) (lowerKey b.name)⟩

instance : IsTrans CommandDefinition cmdLe :=
  ⟨fun _ _ _ hab hbc => lexLe_trans _ _ _ hab hbc⟩

instance : IsTotal ExecutionLog histLe :=
  ⟨fun a b => le_total b.startedAt a.startedAt⟩

instance : IsTrans ExecutionLog histLe :=
  ⟨fun _ _ _ hab hbc => le_trans hbc hab⟩

/-! ### Stability lemmas about the keyed upsert -/

section StableUpsertLemmas

variable {α : Type} (le : α → α → Prop) [DecidableRel le] (pid : α → String)

theorem filter_orderedInsert_ne (p : α) (S : List α)
    (h : ∀ x ∈ S, pid x ≠ pid p) :
    (List.orderedInsert le p S).filter (fun x => pid x ≠ pid p) = S := by
  induction S with
  | nil => simp
  | cons b S ih =>
    rw [List.orderedInsert]
    by_cases hb : le p b
    · rw [if_pos hb]
      have hall : ∀ x ∈ b :: S, (decide (pid x ≠ pid p)) = true := by
        intro x hx; simpa using h x hx
      rw [List.filter_cons, if_neg (by simp), List.filter_eq_self.mpr hall]
    · rw [if_neg hb, List.filter_cons,
        if_pos (by simpa using h b (List.mem_cons_self b S)),
        ih (fun x hx => h x (List.mem_cons_of_mem b hx))]

theorem orderedInsert_append_not_le (p : α) (w z : List α)
    (h : ∀ x ∈ w, ¬ le p x) :
    List.orderedInsert le p (w ++ z) = w ++ List.orderedInsert le p z := by
  induction w with
  | nil => simp
  | cons a w ih =>
    rw [List.cons_append, List.orderedInsert,
      if_neg (h a (List.mem_cons_self a w)),
      ih (fun x hx => h x (List.mem_cons_of_mem a hx)), List.cons_append]

theorem orderedInsert_head_le (p : α) (z : List α)
    (h : ∀ hd tl, z = hd :: tl → le p hd) :
    List.orderedInsert le p z = p :: z := by
  cases z with
  | nil => rfl
  | cons hd tl => rw [List.orderedInsert, if_pos (h hd tl rfl)]

theorem orderedInsert_all_not_le (p : α) (w : List α) (h : ∀ x ∈ w, ¬ le p x) :
    List.orderedInsert le p w = w ++ [p] := by
  have := orderedInsert_append_not_le le p w [] h
  simpa using this

theorem dropWhile_head_eq_false (q : α → Bool) :
    ∀ (l : List α) (hd : α) (tl : List α), l.dropWhile q = hd :: tl → q hd = false := by
  intro l
  induction l with
  | nil => intro hd tl h; simp [List.dropWhile] at h
  | cons a l ih =>
    intro hd tl h
    rw [List.dropWhile_cons] at h
    by_cases ha : q a = true
    · rw [if_pos ha] at h; exact ih hd tl h
    · rw [if_neg ha] at h
      injection h with h1 _
      rw [← h1]
      simpa using ha

theorem upsertS_idem [IsTotal α le] [IsTrans α le] (p : α) (l : List α) :
    upsertS le pid p (upsertS le pid p l) = upsertS le pid p l := by
  unfold upsertS
  set S := List.insertionSort le (l.filter fun x => pid x ≠ pid p) with hS
  have hmem : ∀ x ∈ S, pid x ≠ pid p := by
    intro x hx
    rw [hS, List.mem_insertionSort, List.mem_filter] at hx
    simpa using hx.2
  have hsorted : List.Sorted le S := by
    rw [hS]; exact List.sorted_insertionSort le _
  have h1 : List.insertionSort le (p :: l.filter fun x => pid x ≠ pid p)
      = List.orderedInsert le p S := rfl
  rw [h1, filter_orderedInsert_ne le pid p S hmem]
  show List.orderedInsert le p (List.insertionSort le S) = List.orderedInsert le p S
  rw [hsorted.insertionSort_eq]

theorem upsertS_take_idem [IsTotal α le] [IsTrans α le] (n : ℕ) (p : α) (l : List α) :
    (upsertS le pid p ((upsertS le pid p l).take n)).take n
      = (upsertS le pid p l).take n := by
  unfold upsertS
  set S := List.insertionSort le (l.filter fun x => pid x ≠ pid p) with hS
  have hmem : ∀ x ∈ S, pid x ≠ pid p := by
    intro x hx
    rw [hS, List.mem_insertionSort, List.mem_filter] at hx
    simpa using hx.2
  have hsorted : List.Sorted le S := by
    rw [hS]; exact List.sorted_insertionSort le _
  have h1 : List.insertionSort le (p :: l.filter fun x => pid x ≠ pid p)
      = List.orderedInsert le p S := rfl
  rw [h1]
  obtain ⟨w, d, hwpd, hw_not, hd_head, hwd⟩ :
      ∃ w d, List.orderedInsert le p S = w ++ p :: d ∧ (∀ x ∈ w, ¬ le p x) ∧
        (∀ hd tl, d = hd :: tl → le p hd) ∧ w ++ d = S := by
    refine ⟨S.takeWhile (fun b => ¬ le p b), S.dropWhile (fun b => ¬ le p b),
      List.orderedInsert_eq_take_drop le p S, ?_, ?_,
      List.takeWhile_append_dropWhile _ _⟩
    · intro x hx; simpa using List.mem_takeWhile_imp hx
    · intro hd tl hdt
      have := dropWhile_head_eq_false (fun b => decide (¬ le p b)) S hd tl hdt
      simpa using this
  have hw_pid : ∀ x ∈ w, pid x ≠ pid p := by
    intro x hx
    exact hmem x (by rw [← hwd]; exact List.mem_append_left d hx)
  have hd_pid : ∀ x ∈ d, pid x ≠ pid p := by
    intro x hx
    exact hmem x (by rw [← hwd]; exact List.mem_append_right w hx)
  rw [hwpd]
  rcases le_or_lt n w.length with hn | hn
  · -- the payload is pushed beyond the truncation window
    have htake : (w ++ p :: d).take n = w.take n := by
      rw [List.take_append_eq_append_take, Nat.sub_eq_zero_of_le hn,
        List.take_zero, List.append_nil]
    rw [htake]
    have hfil : (w.take n).filter (fun x => pid x ≠ pid p) = w.take n :=
      List.filter_eq_self.mpr
        (fun x hx => by simpa using hw_pid x (List.take_subset n w hx))
    rw [hfil]
    have hsorted_tw : List.Sorted le (w.take n) :=
      hsorted.sublist
        ((List.take_sublist n w).trans (hwd ▸ List.sublist_append_left w d))
    have h2 : List.insertionSort le (p :: w.take n)
        = List.orderedInsert le p (w.take n) := by
      show List.orderedInsert le p (List.insertionSort le (w.take n)) = _
      rw [hsorted_tw.insertionSort_eq]
    rw [h2, orderedInsert_all_not_le le p _
      (fun x hx => hw_not x (List.take_subset n w hx))]
    have hlen : (w.take n).length = n := by
      rw [List.length_take]; omega
    rw [List.take_append_eq_append_take, List.take_take, min_self, hlen,
      Nat.sub_self, List.take_zero, List.append_nil]
  · -- the payload survives the truncation window
    obtain ⟨m, hm⟩ : ∃ m, n - w.length = m + 1 := ⟨n - w.length - 1, by omega⟩
    have htake : (w ++ p :: d).take n = w ++ p :: d.take m := by
      rw [List.take_append_eq_append_take, List.take_of_length_le (le_of_lt hn),
        hm, List.take_succ_cons]
    rw [htake]
    have hfw : ∀ x ∈ w, (decide (pid x ≠ pid p)) = true := by
      intro x hx; simpa using hw_pid x hx
    have hfd : ∀ x ∈ d.take m, (decide (pid x ≠ pid p)) = true := by
      intro x hx; simpa using hd_pid x (List.take_subset m d hx)
    have hfil : (w ++ p :: d.take m).filter (fun x => pid x ≠ pid p)
        = w ++ d.take m := by
      rw [List.filter_append, List.filter_cons, if_neg (by simp),
        List.filter_eq_self.mpr hfw, List.filter_eq_self.mpr hfd]
    rw [hfil]
    have hsorted_wd : List.Sorted le (w ++ d.take m) :=
      hsorted.sublist (hwd ▸ (List.take_sublist m d).append_left w)
    have h2 : List.insertionSort le (p :: (w ++ d.take m))
        = List.orderedInsert le p (w ++ d.take m) := by
      show List.orderedInsert le p (List.insertionSort le (w ++ d.take m)) = _
      rw [hsorted_wd.insertionSort_eq]
    rw [h2, orderedInsert_append_not_le le p w _ hw_not]
    have h3 : List.orderedInsert le p (d.take m) = p :: d.take m := by
      apply orderedInsert_head_le
      intro hd' tl' heq'
      cases d with
      | nil => simp at heq'
      | cons a d0 =>
        cases m with
        | zero => simp at heq'
        | succ m' =>
          rw [List.take_succ_cons] at heq'
          injection heq' with h1 _
          rw [← h1]
          exact hd_head a d0 rfl
    rw [h3]
    apply List.take_of_length_le
    rw [List.length_append, List.length_cons, List.length_take]
    have := Nat.min_le_left m d.length
    omega

end StableUpsertLemmas

/-- Bridge: the command merge arm is the keyed stable upsert at the
case-insensitive name order. -/
theorem applyCommandUpsert_eq_upsertS (c : List CommandDefinition)
    (p : CommandDefinition) :
    applyCommandUpsert c p = upsertS cmdLe (fun x => x.id) p c := rfl

/-- Bridge: the execution merge arm is the truncated keyed stable upsert at
the descending startedAt order. -/
theorem applyExecutionUpsert_eq_upsertS (c : List ExecutionLog)
    (p : ExecutionLog) :
    applyExecutionUpsert c p = (upsertS histLe (fun x => x.id) p c).take 100 := rfl

/-! ### Facts about the execution merge arm -/

theorem applyExecutionUpsert_length (c : List ExecutionLog) (p : ExecutionLog) :
    (applyExecutionUpsert c p).length ≤ 100 := by
  rw [applyExecutionUpsert, List.length_take]
  exact min_le_left 100 _

theorem applyExecutionUpsert_sorted (c : List ExecutionLog) (p : ExecutionLog) :
    List.Sorted histLe (applyExecutionUpsert c p) :=
  (List.sorted_insertionSort histLe _).sublist (List.take_sublist 100 _)

theorem applyExecutionUpsert_mem (c : List ExecutionLog) (p x : ExecutionLog)
    (hx : x ∈ applyExecutionUpsert c p) : x = p ∨ x ∈ c := by
  rw [applyExecutionUpsert] at hx
  have h1 := List.take_subset 100 _ hx
  rw [List.mem_insertionSort] at h1
  rcases List.mem_cons.mp h1 with h | h
  · exact Or.inl h
  · exact Or.inr (List.mem_filter.mp h).1

/-! ### Claim C1: reconciler idempotence -/

/-- C1: for every canonical state and every well-formed inbound event,
applying integrateEvent with that event twice yields a commands collection
and a history collection identical to applying it once. -/
theorem integrateEvent_idempotent (s : StoreState) (e : ServerEvent) :
    integrateEvent (integrateEvent s e) e = integrateEvent s e := by
  cases e with
  | command_created payload =>
      simp [integrateEvent, applyCommandUpsert_eq_upsertS, upsertS_idem]
  | command_updated payload =>
      simp [integrateEvent, applyCommandUpsert_eq_upsertS, upsertS_idem]
  | command_deleted id =>
      simp only [integrateEvent, applyCommandDelete]
      congr 1
      exact List.filter_eq_self.mpr (fun x hx => (List.mem_filter.mp hx).2)
  | execution_started payload =>
      simp [integrateEvent, applyExecutionUpsert_eq_upsertS, upsertS_take_idem]
  | execution_updated payload =>
      simp [integrateEvent, applyExecutionUpsert_eq_upsertS, upsertS_take_idem]
  | execution_finished payload =>
      simp [integrateEvent, applyExecutionUpsert_eq_upsertS, upsertS_take_idem]

/-! ### Claim C2: bounded history -/

/-- C2 counterexample: with the empty event sequence an oversized starting
collection stays oversized, and a starting entry that was never delivered
remains in the merged history, so the resulting history neither is always
bounded by 100 nor consists only of delivered entries. -/
theorem history_bounded_counterexample :
    100 < (applyEvents { emptyStore with history := oversizedHistory } []).history.length ∧
    sampleLog "h1" 0 ∈ (applyEvents { emptyStore with history := [sampleLog "h1" 0] }
        [ServerEvent.execution_started (sampleLog "e1" 5)]).history ∧
    executionPayload (ServerEvent.execution_started (sampleLog "e1" 5))
      ≠ some (sampleLog "h1" 0) := by
  refine ⟨?_, by decide, by decide⟩
  simp [applyEvents, oversizedHistory]

/-- C2 (amended): for every starting history collection and every nonempty
finite sequence of execution events applied through the event-merge path,
the resulting history collection has at most 100 entries, is sorted by
startedAt descending, and every entry is either the payload of one of the
delivered events or an entry of the starting collection. -/
theorem history_bounded (s : StoreState) (events : List ServerEvent)
    (hne : events ≠ [])
    (hexec : ∀ e ∈ events, isExecutionEvent e = true) :
    (applyEvents s events).history.length ≤ 100 ∧
    List.Sorted histLe (applyEvents s events).history ∧
    ∀ x ∈ (applyEvents s events).history,
      (∃ e ∈ events, executionPayload e = some x) ∨ x ∈ s.history := by
  induction events generalizing s with
  | nil => exact absurd rfl hne
  | cons e rest ih =>
    have hee : isExecutionEvent e = true := hexec e (List.mem_cons_self e rest)
    obtain ⟨p, hp_pay, hist_eq⟩ : ∃ p, executionPayload e = some p ∧
        (integrateEvent s e).history = applyExecutionUpsert s.history p := by
      cases e with
      | execution_started q => exact ⟨q, rfl, rfl⟩
      | execution_updated q => exact ⟨q, rfl, rfl⟩
      | execution_finished q => exact ⟨q, rfl, rfl⟩
      | command_created q => simp [isExecutionEvent] at hee
      | command_updated q => simp [isExecutionEvent] at hee
      | command_deleted q => simp [isExecutionEvent] at hee
    cases rest with
    | nil =>
      have happ : applyEvents s [e] = integrateEvent s e := rfl
      rw [happ, hist_eq]
      refine ⟨applyExecutionUpsert_length _ _, applyExecutionUpsert_sorted _ _, ?_⟩
      intro x hx
      rcases applyExecutionUpsert_mem _ _ _ hx with rfl | h
      · exact Or.inl ⟨e, List.mem_cons_self e [], hp_pay⟩
      · exact Or.inr h
    | cons e2 rest2 =>
      have happ : applyEvents s (e :: e2 :: rest2)
          = applyEvents (integrateEvent s e) (e2 :: rest2) := rfl
      rw [happ]
      obtain ⟨hlen, hsort, hmem⟩ := ih (integrateEvent s e) (by simp)
        (fun e' he' => hexec e' (List.mem_cons_of_mem e he'))
      refine ⟨hlen, hsort, ?_⟩
      intro x hx
      rcases hmem x hx with ⟨e', he', hpe⟩ | hxs
      · exact Or.inl ⟨e', List.mem_cons_of_mem e he', hpe⟩
      · rw [hist_eq] at hxs
        rcases applyExecutionUpsert_mem _ _ _ hxs with rfl | h
        · exact Or.inl ⟨e, List.mem_cons_self e _, hp_pay⟩
        · exact Or.inr h

/-- C2 witness: the amended bound evaluated on a concrete singleton event
sequence. -/
theorem history_bounded_witness :
    (applyEvents emptyStore [ServerEvent.execution_started (sampleLog "e1" 5)]).history.length
      ≤ 100 :=
  (history_bounded emptyStore [ServerEvent.execution_started (sampleLog "e1" 5)]
    (by decide) (by decide)).1

/-! ### Claim C3: id uniqueness -/

theorem pairwise_ne_upsertS {α : Type} (le : α → α → Prop) [DecidableRel le]
    (pid : α → String) (p : α) (l : List α)
    (h : l.Pairwise (fun a b => pid a ≠ pid b)) :
    (upsertS le pid p l).Pairwise (fun a b => pid a ≠ pid b) := by
  unfold upsertS
  rw [(List.perm_insertionSort le _).pairwise_iff (fun hab => hab.symm)]
  refine List.pairwise_cons.mpr ⟨?_, h.sublist (List.filter_sublist l)⟩
  intro b hb
  have hbp : pid b ≠ pid p := by simpa using (List.mem_filter.mp hb).2
  exact fun hpb => hbp hpb.symm

/-- C3: for every finite sequence of events applied through the event-merge
path starting from collections with pairwise-distinct ids, the resulting
commands collection and history collection each contain no two entries
sharing the same id. -/
theorem ids_unique (s : StoreState) (events : List ServerEvent)
    (hc : commandIdsNodup s.commands) (hh : historyIdsNodup s.history) :
    commandIdsNodup (applyEvents s events).commands ∧
    historyIdsNodup (applyEvents s events).history := by
  induction events generalizing s with
  | nil => exact ⟨hc, hh⟩
  | cons e rest ih =>
    have hstep : commandIdsNodup (integrateEvent s e).commands ∧
        historyIdsNodup (integrateEvent s e).history := by
      cases e with
      | command_created p =>
          refine ⟨?_, hh⟩
          rw [integrateEvent]
          show commandIdsNodup (applyCommandUpsert s.commands p)
          rw [applyCommandUpsert_eq_upsertS]
          exact pairwise_ne_upsertS cmdLe (fun x => x.id) p s.commands hc
      | command_updated p =>
          refine ⟨?_, hh⟩
          rw [integrateEvent]
          show commandIdsNodup (applyCommandUpsert s.commands p)
          rw [applyCommandUpsert_eq_upsertS]
          exact pairwise_ne_upsertS cmdLe (fun x => x.id) p s.commands hc
      | command_deleted id =>
          exact ⟨hc.sublist (List.filter_sublist s.commands), hh⟩
      | execution_started p =>
          refine ⟨hc, ?_⟩
          rw [integrateEvent]
          show historyIdsNodup (applyExecutionUpsert s.history p)
          rw [applyExecutionUpsert_eq_upsertS]
          exact (pairwise_ne_upsertS histLe (fun x => x.id) p s.history hh).sublist
            (List.take_sublist 100 _)
      | execution_updated p =>
          refine ⟨hc, ?_⟩
          rw [integrateEvent]
          show historyIdsNodup (applyExecutionUpsert s.history p)
          rw [applyExecutionUpsert_eq_upsertS]
          exact (pairwise_ne_upsertS histLe (fun x => x.id) p s.history hh).sublist
            (List.take_sublist 100 _)
      | execution_finished p =>
          refine ⟨hc, ?_⟩
          rw [integrateEvent]
          show historyIdsNodup (applyExecutionUpsert s.history p)
          rw [applyExecutionUpsert_eq_upsertS]
          exact (pairwise_ne_upsertS histLe (fun x => x.id) p s.history hh).sublist
            (List.take_sublist 100 _)
    exact ih (integrateEvent s e) hstep.1 hstep.2

/-- C3 witness: uniqueness evaluated from the empty collections over a
concrete two-event sequence. -/
theorem ids_unique_witness :
    commandIdsNodup (applyEvents emptyStore
      [ServerEvent.command_created fixedCommand,
       ServerEvent.execution_started (sampleLog "e1" 5)]).commands ∧
    historyIdsNodup (applyEvents emptyStore
      [ServerEvent.command_created fixedCommand,
       ServerEvent.execution_started (sampleLog "e1" 5)]).history :=
  ids_unique emptyStore
    [ServerEvent.command_created fixedCommand,
     ServerEvent.execution_started (sampleLog "e1" 5)]
    List.Pairwise.nil List.Pairwise.nil

/-! ### Claim C4: ordering invariant -/

/-- C4: every successful snapshot load leaves the commands collection
sorted ascending by case-insensitive name and the history collection sorted
by startedAt descending, and every event applied through the event-merge
path preserves both orderings. -/
theorem collections_ordered :
    (∀ (s : StoreState) (commandList : List CommandDefinition)
        (historyList : List ExecutionLog), s.serverUrl ≠ "" → s.token ≠ "" →
        List.Sorted cmdLe (fetchData s (FetchOutcome.bothOk commandList historyList)).commands ∧
        List.Sorted histLe (fetchData s (FetchOutcome.bothOk commandList historyList)).history) ∧
    (∀ (s : StoreState) (e : ServerEvent),
        List.Sorted cmdLe s.commands → List.Sorted histLe s.history →
        List.Sorted cmdLe (integrateEvent s e).commands ∧
        List.Sorted histLe (integrateEvent s e).history) := by
  constructor
  · intro s commandList historyList hurl htok
    have hguard : ¬(s.serverUrl = "" ∨ s.token = "") := by
      rintro (h | h)
      · exact hurl h
      · exact htok h
    rw [fetchData, if_neg hguard]
    exact ⟨List.sorted_insertionSort cmdLe commandList,
      List.sorted_insertionSort histLe historyList⟩
  · intro s e hcs hhs
    cases e with
    | command_created p => exact ⟨List.sorted_insertionSort cmdLe _, hhs⟩
    | command_updated p => exact ⟨List.sorted_insertionSort cmdLe _, hhs⟩
    | command_deleted id => exact ⟨hcs.sublist (List.filter_sublist s.commands), hhs⟩
    | execution_started p => exact ⟨hcs, applyExecutionUpsert_sorted s.history p⟩
    | execution_updated p => exact ⟨hcs, applyExecutionUpsert_sorted s.history p⟩
    | execution_finished p => exact ⟨hcs, applyExecutionUpsert_sorted s.history p⟩

/-- C4 witness: the ordering invariant evaluated on a concrete snapshot
load and a concrete event. -/
theorem collections_ordered_witness :
    List.Sorted cmdLe (fetchData emptyStore (FetchOutcome.bothOk [fixedCommand] [])).commands ∧
    List.Sorted histLe
      (integrateEvent emptyStore (ServerEvent.execution_started (sampleLog "e1" 5))).history :=
  ⟨(collections_ordered.1 emptyStore [fixedCommand] [] (by decide) (by decide)).1,
   (collections_ordered.2 emptyStore (ServerEvent.execution_started (sampleLog "e1" 5))
      List.Pairwise.nil List.Pairwise.nil).2⟩

/-! ### Claim C5: local execute guard -/

/-- C5 counterexample: a single parameter line containing a comma is a
non-empty parameter list that differs from the command's default args, yet
the guard compares comma-joined strings, lets it through, and the request
is issued. -/
theorem guard_counterexample :
    fixedCommand.allowArguments = false ∧
    parseParameters "a,b" = ["a,b"] ∧
    parseParameters "a,b" ≠ [] ∧
    parseParameters "a,b" ≠ fixedCommand.args ∧
    handleExecute fixedCommand "a,b" = ExecuteOutcome.networkCall ["a,b"] := by
  refine ⟨rfl, by decide, by decide, by decide, by decide⟩

/-- C5 (amended): for every command with allowArguments false and every
non-empty parameter list whose comma-joined form differs from the
comma-joined default args, the handler fails locally with the validation
error and issues no request. -/
theorem guard_enforcement (command : CommandDefinition) (parameters : List String)
    (h1 : command.allowArguments = false) (h2 : parameters ≠ [])
    (h3 : joinComma parameters ≠ joinComma command.args) :
    guardExecute command parameters
      = ExecuteOutcome.validationError
          "This command does not accept custom parameters. Please reset to defaults." := by
  rw [guardExecute, if_pos ⟨h1, h2, h3⟩]

/-- C5 witness: the guard evaluated on a concrete disallowed parameter
list. -/
theorem guard_enforcement_witness :
    guardExecute fixedCommand ["c"]
      = ExecuteOutcome.validationError
          "This command does not accept custom parameters. Please reset to defaults." :=
  guard_enforcement fixedCommand ["c"] rfl (by decide) (by decide)

/-! ### Claim C6: snapshot atomicity -/

/-- C6: for an authenticated store, when either snapshot pull fails the
collections are left untouched and a single error is reported, and when
both succeed the two collections are fully replaced by the sorted pull
results. -/
theorem snapshot_atomicity (s : StoreState)
    (hurl : s.serverUrl ≠ "") (htok : s.token ≠ "") :
    (∀ message,
        (fetchData s (FetchOutcome.failed message)).commands = s.commands ∧
        (fetchData s (FetchOutcome.failed message)).history = s.history ∧
        (fetchData s (FetchOutcome.failed message)).error = some message) ∧
    (∀ (commandList : List CommandDefinition) (historyList : List ExecutionLog),
        (fetchData s (FetchOutcome.bothOk commandList historyList)).commands
          = List.insertionSort cmdLe commandList ∧
        (fetchData s (FetchOutcome.bothOk commandList historyList)).history
          = List.insertionSort histLe historyList ∧
        (fetchData s (FetchOutcome.bothOk commandList historyList)).error = none) := by
  have hguard : ¬(s.serverUrl = "" ∨ s.token = "") := by
    rintro (h | h)
    · exact hurl h
    · exact htok h
  constructor
  · intro message
    rw [fetchData, if_neg hguard]
    exact ⟨rfl, rfl, rfl⟩
  · intro commandList historyList
    rw [fetchData, if_neg hguard]
    exact ⟨rfl, rfl, rfl⟩

/-- C6 witness: the failure branch evaluated on a concrete store. -/
theorem snapshot_atomicity_witness :
    (fetchData emptyStore (FetchOutcome.failed "Unable to reach server")).commands
      = emptyStore.commands ∧
    (fetchData emptyStore (FetchOutcome.failed "Unable to reach server")).error
      = some "Unable to reach server" :=
  ⟨((snapshot_atomicity emptyStore (by decide) (by decide)).1 "Unable to reach server").1,
   ((snapshot_atomicity emptyStore (by decide) (by decide)).1 "Unable to reach server").2.2⟩

/-! ### Claim C7: session teardown -/

/-- C7: for every store state and storage, after logout the token is empty,
the status is disconnected, both collections are empty, and the persisted
session record is removed. -/
theorem logout_teardown (s : StoreState) (storage : LocalStorage) :
    (logout s storage).1.token = "" ∧
    (logout s storage).1.status = ConnectionStatus.disconnected ∧
    (logout s storage).1.commands = [] ∧
    (logout s storage).1.history = [] ∧
    (logout s storage).2.session = none :=
  ⟨rfl, rfl, rfl, rfl, rfl⟩

/-! ### Claim C8: URL normalization -/

/-- C8 counterexample: on the empty input the source normalizer returns the
empty string, while trimming, stripping slashes and prefixing the missing
scheme (the specification's description applied to every input string)
would return the bare scheme prefix. -/
theorem normalize_url_counterexample :
    normalizeServerUrl "" = "" ∧
    specNormalizeServerUrl "" = "https://" ∧
    normalizeServerUrl "" ≠ specNormalizeServerUrl "" := by
  refine ⟨by decide, by decide, by decide⟩

/-- C8 (amended): for every input string whose trimmed form is non-empty,
the normalizer trims whitespace, strips all trailing slashes, and prefixes
https:// exactly when no http:// or https:// scheme is present, leaving
already-schemed URLs otherwise unchanged; a whitespace-only input
normalizes to the empty string; in particular "cc.local:6280" normalizes to
"https://cc.local:6280". -/
theorem normalize_url :
    (∀ input, jsTrim input ≠ "" →
        normalizeServerUrl input = specNormalizeServerUrl input) ∧
    (∀ input, jsTrim input = "" → normalizeServerUrl input = "") ∧
    normalizeServerUrl "cc.local:6280" = "https://cc.local:6280" := by
  refine ⟨fun input h => ?_, fun input h => ?_, by decide⟩
  · rw [normalizeServerUrl, specNormalizeServerUrl]
    simp only [if_neg h]
  · rw [normalizeServerUrl]
    simp only [if_pos h]

/-- C8 witness: the normalizer agrees with the specification's description
on a concrete non-empty input with surrounding whitespace and trailing
slashes. -/
theorem normalize_url_witness :
    normalizeServerUrl " cc.local:6280/ " = specNormalizeServerUrl " cc.local:6280/ " :=
  normalize_url.1 " cc.local:6280/ " (by decide)

/-! ### Claim C9: session hydration -/

/-- C9: a persisted session record with a non-empty token hydrates the
store with that serverUrl and token and status connecting, and without a
record the store starts disconnected with an empty token. -/
theorem session_hydration :
    (∀ (u t : String) (fallbackServer : Option String), t ≠ "" →
        (initialStore (some ⟨some u, some t⟩) fallbackServer).serverUrl = u ∧
        (initialStore (some ⟨some u, some t⟩) fallbackServer).token = t ∧
        (initialStore (some ⟨some u, some t⟩) fallbackServer).status
          = ConnectionStatus.connecting) ∧
    (∀ fallbackServer,
        (initialStore none fallbackServer).status = ConnectionStatus.disconnected ∧
        (initialStore none fallbackServer).token = "") := by
  refine ⟨fun u t fallbackServer ht => ⟨rfl, rfl, ?_⟩, fun fallbackServer => ⟨?_, rfl⟩⟩
  · simp [initialStore, initialSession, ht]
  · simp [initialStore, initialSession]

/-- C9 witness: hydration evaluated on a concrete persisted record. -/
theorem session_hydration_witness :
    (initialStore (some ⟨some "https://cc.local:6280", some "tok"⟩) none).status
      = ConnectionStatus.connecting :=
  (session_hydration.1 "https://cc.local:6280" "tok" none (by decide)).2.2

/-! ### Claim C10: failed login teardown -/

/-- C10: after a failed login attempt (non-2xx response or network failure)
the token is empty, the status is disconnected, and the persisted session
record has been removed. -/
theorem failed_login_teardown (s : StoreState) (storage : LocalStorage)
    (serverUrl message : String)
    (h : normalizeServerUrl serverUrl ≠ "") :
    (login s storage serverUrl (LoginResult.failure message)).1.token = "" ∧
    (login s storage serverUrl (LoginResult.failure message)).1.status
      = ConnectionStatus.disconnected ∧
    (login s storage serverUrl (LoginResult.failure message)).2.session = none := by
  rw [login]
  simp only [if_neg h]
  exact ⟨trivial, trivial, trivial⟩

/-- C10 witness: a concrete failed login against a store holding a
previously persisted session. -/
theorem failed_login_teardown_witness :
    (login emptyStore ⟨some ⟨some "https://cc.local:6280", some "tok"⟩, none⟩
        "cc.local:6280" (LoginResult.failure "Unable to authenticate")).1.token = "" ∧
    (login emptyStore ⟨some ⟨some "https://cc.local:6280", some "tok"⟩, none⟩
        "cc.local:6280" (LoginResult.failure "Unable to authenticate")).2.session = none :=
  ⟨(failed_login_teardown emptyStore ⟨some ⟨some "https://cc.local:6280", some "tok"⟩, none⟩
      "cc.local:6280" "Unable to authenticate" (by decide)).1,
   (failed_login_teardown emptyStore ⟨some ⟨some "https://cc.local:6280", some "tok"⟩, none⟩
      "cc.local:6280" "Unable to authenticate" (by decide)).2.2⟩

end CommandCenter
